import Mathlib

/-!
# Remote-to-repository resolver (`context/context.go`)

A shallow embedding of the Go package `context`: the `ResolvedRemotes` type, its
queries `BaseRepo`, `SetBaseRepo`, `HeadRepos`, `RemoteForRepo`, and the
freestanding helpers `GetBaseRepo` and `RemoveBaseRepo`.

Go's side effects are made explicit.  Every operation returns a `Step`: the
returned value (`none` when the Go code panics), the receiver after the call
(the `network` field is the only one ever assigned) and the list of calls made
to the outside world during the operation, in order.
-/

namespace context

/-! ## Data model -/

/-- A Go `error` value, identified with its message. -/
abbrev Error := String

/-- The value type behind `ghrepo.New` / `ghrepo.NewWithHost` / `ghrepo.FromFullName`:
owner, name and host of a repository. -/
structure RepoIdentity where
  owner : String
  name : String
  host : String
deriving DecidableEq, Repr

/-- The type `context.Remote`: a git remote (`Name`, `Resolved` come from the
embedded `*git.Remote`) together with the repository it points to. -/
structure Remote where
  Name : String
  Resolved : String
  Repo : RepoIdentity
deriving DecidableEq, Repr

/-- The type `api.Repository`, restricted to what the package reads: its own
identity, the optional parent (set when the repository is a fork) and whether the
viewer may push. -/
inductive Repository where
  | mk (id : RepoIdentity) (Parent : Option Repository) (ViewerCanPush : Bool)
deriving Repr

namespace Repository

/-- Own identity of a repository record. -/
def id : Repository → RepoIdentity
  | mk i _ _ => i

/-- Field `Parent` of `api.Repository` (a nil pointer is `none`). -/
def Parent : Repository → Option Repository
  | mk _ p _ => p

/-- Method `ViewerCanPush` of `api.Repository`. -/
def ViewerCanPush : Repository → Bool
  | mk _ _ b => b

end Repository

/-- The values of type `ghrepo.Interface` that occur in this package: a plain
ghrepo value, a `*Remote`, or an `*api.Repository`. -/
inductive Interface where
  | repo (r : RepoIdentity)
  | remote (r : Remote)
  | repository (r : Repository)
deriving Repr

namespace Interface

/-- Method `RepoOwner` of `ghrepo.Interface`. -/
def RepoOwner : Interface → String
  | repo r => r.owner
  | remote r => r.Repo.owner
  | repository r => r.id.owner

/-- Method `RepoName` of `ghrepo.Interface`. -/
def RepoName : Interface → String
  | repo r => r.name
  | remote r => r.Repo.name
  | repository r => r.id.name

/-- Method `RepoHost` of `ghrepo.Interface`. -/
def RepoHost : Interface → String
  | repo r => r.host
  | remote r => r.Repo.host
  | repository r => r.id.host

end Interface

/-- The type `api.RepoNetworkResult`: one entry per looked-up repository, `none`
where the forge returned no data. -/
structure RepoNetworkResult where
  Repositories : List (Option Repository)
deriving Repr

/-- The type `ResolvedRemotes`.  The opaque `apiClient` handle is represented by
the `RepoNetwork` collaborator. -/
structure ResolvedRemotes where
  baseOverride : Option Interface
  remotes : List Remote
  network : Option RepoNetworkResult
deriving Repr

/-! ## Helpers of package `ghrepo` -/

namespace ghrepo

/-- Modelled from the spec: `ghrepo.FullName` is not part of the sources at hand;
the canonical full name of a repository is `"owner/name"`, the host excluded. -/
def FullName (r : Interface) : String :=
  r.RepoOwner ++ "/" ++ r.RepoName

/-- Case folding used for the case-insensitive comparison of identity fields. -/
def foldCase (s : String) : List Char :=
  s.data.map Char.toLower

/-- Modelled from the spec: `ghrepo.IsSame` is not part of the sources at hand; two
identities are the same repository iff owner, name and host all match
case-insensitively. -/
def IsSame (a b : Interface) : Bool :=
  decide (foldCase a.RepoOwner = foldCase b.RepoOwner) &&
  decide (foldCase a.RepoName = foldCase b.RepoName) &&
  decide (foldCase a.RepoHost = foldCase b.RepoHost)

/-- Modelled from the spec: `ghrepo.NewWithHost` is not part of the sources at hand;
`with_host(owner, name, host)` is the direct constructor of an identity. -/
def NewWithHost (owner name hostname : String) : Interface :=
  Interface.repo ⟨owner, name, hostname⟩

end ghrepo

/-! ## Collaborators and observable calls -/

/-- The behaviour of the outside world during one operation: the terminal
(`io.CanPrompt`), the forge (`api.RepoNetwork` on the instance's client), the
prompt (`prompt.SurveyAskOne` with a `survey.Select` over the given options), git
config (`git.SetRemoteResolution`, `git.UnsetRemoteResolution`) and the full-name
parser `ghrepo.FromFullName`. -/
structure Env where
  CanPrompt : Bool
  RepoNetwork : List Remote → RepoNetworkResult × Option Error
  SurveyAskOne : List String → Except Error String
  SetRemoteResolution : String → String → Option Error
  UnsetRemoteResolution : String → Option Error
  FromFullName : String → Except Error Interface

/-- A call made to the outside world. -/
inductive Event where
  | RepoNetwork (repos : List Remote)
  | SurveyAskOne (options : List String)
  | SetRemoteResolution (name resolution : String)
  | UnsetRemoteResolution (name : String)
deriving DecidableEq, Repr

namespace Event

/-- Recognises a forge lookup. -/
def isRepoNetwork : Event → Bool
  | RepoNetwork _ => true
  | _ => false

/-- Recognises a prompt. -/
def isSurveyAskOne : Event → Bool
  | SurveyAskOne _ => true
  | _ => false

/-- Recognises a write to git config. -/
def isSetRemoteResolution : Event → Bool
  | SetRemoteResolution _ _ => true
  | _ => false

end Event

/-- Outcome of one method call on a `ResolvedRemotes`: the returned values (`none`
when the call panics), the receiver afterwards, and the outside calls made. -/
structure Step (α : Type) where
  ret : Option α
  self : ResolvedRemotes
  calls : List Event

/-! ## The package -/

/-- The constant `maxRemotesForLookup`. -/
def maxRemotesForLookup : Nat := 5

/-- The loop of `resolveNetwork`: append each remote to `repos` and stop as soon as
`repos` holds `maxRemotesForLookup` elements. -/
def resolveNetwork.repos : List Remote → List Remote → List Remote
  | [], repos => repos
  | r :: rest, repos =>
    let repos := repos ++ [r]
    if repos.length = maxRemotesForLookup then repos else resolveNetwork.repos rest repos

/-- The function `resolveNetwork`: returns the error of the forge call; the
`network` field is assigned whatever the call returned. -/
def resolveNetwork (env : Env) (result : ResolvedRemotes) :
    Option Error × ResolvedRemotes × List Event :=
  let repos := resolveNetwork.repos result.remotes []
  let res := env.RepoNetwork repos
  (res.2, { result with network := some res.1 }, [Event.RepoNetwork repos])

/-- The function `GetBaseRepo`. -/
def GetBaseRepo (env : Env) : List Remote → Option Interface × Option Error
  | [] => (none, some "a default repo has not been set, use `gh repo default` to set a default repo")
  | r :: rest =>
    if r.Resolved = "base" then
      (some (Interface.remote r), none)
    else if r.Resolved ≠ "" then
      match env.FromFullName r.Resolved with
      | Except.error err => (none, some err)
      | Except.ok repo =>
        (some (ghrepo.NewWithHost repo.RepoOwner repo.RepoName (Interface.remote r).RepoHost), none)
    else GetBaseRepo env rest

/-- The method `RemoteForRepo`. -/
def RemoteForRepo (remotes : List Remote) (repo : Interface) : Option Remote × Option Error :=
  match remotes with
  | [] => (none, some "not found")
  | remote :: rest =>
    if ghrepo.IsSame (Interface.remote remote) repo then (some remote, none)
    else RemoteForRepo rest repo

/-- The accumulators `repoNames` and `repoMap` of `BaseRepo` and `SetBaseRepo`; the
Go map is kept as an association list in insertion order. -/
structure Candidates where
  repoNames : List String
  repoMap : List (String × Repository)
deriving Repr

/-- The closure `add`: record the repository under its full name unless the name is
already a key of `repoMap`. -/
def add (s : Candidates) (r : Repository) : Candidates :=
  let fn := ghrepo.FullName (Interface.repository r)
  match s.repoMap.lookup fn with
  | some _ => s
  | none => { repoNames := s.repoNames ++ [fn], repoMap := s.repoMap ++ [(fn, r)] }

/-- The loop over `r.network.Repositories`: skip nil entries, add the parent (if any)
and then the entry. -/
def walk : List (Option Repository) → Candidates → Candidates
  | [], s => s
  | none :: rest, s => walk rest s
  | some repo :: rest, s =>
    let s := match repo.Parent with
      | some parent => add s parent
      | none => s
    walk rest (add s repo)

/-- The candidates built from a network result, starting from empty accumulators. -/
def candidates (network : RepoNetworkResult) : Candidates :=
  walk network.Repositories ⟨[], []⟩

/-- The hint loop of `BaseRepo`: `none` when the loop runs to its end, otherwise the
values returned from inside the loop. -/
def BaseRepo.hints (env : Env) : List Remote → Option (Option Interface × Option Error)
  | [] => none
  | r :: rest =>
    if r.Resolved = "base" then
      some (some (Interface.remote r), none)
    else if r.Resolved ≠ "" then
      match env.FromFullName r.Resolved with
      | Except.error err => some (none, some err)
      | Except.ok repo =>
        some (some (ghrepo.NewWithHost repo.RepoOwner repo.RepoName (Interface.remote r).RepoHost),
          none)
    else BaseRepo.hints env rest

/-- The part of `BaseRepo` after the network is known (`len(repoNames) == 0`
onwards), run on receiver `r` with the outside calls `calls` already made.  A
`baseName` that is no key of `repoMap` makes `selectedRepo` a nil pointer, whose
first use panics; so does `r.remotes[0]` on an empty list. -/
def BaseRepo.choose (env : Env) (r : ResolvedRemotes) (network : RepoNetworkResult)
    (calls : List Event) : Step (Option Interface × Option Error) :=
  let c := candidates network
  if c.repoNames.length = 0 then
    match r.remotes[0]? with
    | none => ⟨none, r, calls⟩
    | some first => ⟨some (some (Interface.remote first), none), r, calls⟩
  else
    match c.repoNames[0]? with
    | none => ⟨none, r, calls⟩
    | some first =>
      let asked : Except Error String × List Event :=
        if c.repoNames.length > 1 then
          (env.SurveyAskOne c.repoNames, [Event.SurveyAskOne c.repoNames])
        else (Except.ok first, [])
      match asked.1 with
      | Except.error err => ⟨some (none, some err), r, calls ++ asked.2⟩
      | Except.ok baseName =>
        match c.repoMap.lookup baseName with
        | none => ⟨none, r, calls ++ asked.2⟩
        | some selectedRepo =>
          match (RemoteForRepo r.remotes (Interface.repository selectedRepo)).1 with
          | some remote =>
            ⟨some (some (Interface.repository selectedRepo),
                env.SetRemoteResolution remote.Name "base"),
              r, calls ++ asked.2 ++ [Event.SetRemoteResolution remote.Name "base"]⟩
          | none =>
            match r.remotes[0]? with
            | none => ⟨none, r, calls ++ asked.2⟩
            | some remote =>
              let resolution := ghrepo.FullName (Interface.repository selectedRepo)
              ⟨some (some (Interface.repository selectedRepo),
                  env.SetRemoteResolution remote.Name resolution),
                r, calls ++ asked.2 ++ [Event.SetRemoteResolution remote.Name resolution]⟩

/-- The method `BaseRepo`. -/
def BaseRepo (env : Env) (r : ResolvedRemotes) : Step (Option Interface × Option Error) :=
  match r.baseOverride with
  | some baseOverride => ⟨some (some baseOverride, none), r, []⟩
  | none =>
    match BaseRepo.hints env r.remotes with
    | some res => ⟨some res, r, []⟩
    | none =>
      if !env.CanPrompt then
        match r.remotes[0]? with
        | none => ⟨none, r, []⟩
        | some first => ⟨some (some (Interface.remote first), none), r, []⟩
      else
        match r.network with
        | some network => BaseRepo.choose env r network []
        | none =>
          match resolveNetwork env r with
          | (some err, r, calls) => ⟨some (none, some err), r, calls⟩
          | (none, r, calls) =>
            match r.network with
            | none => ⟨none, r, calls⟩
            | some network => BaseRepo.choose env r network calls

/-- The part of `SetBaseRepo` after the network is known. -/
def SetBaseRepo.choose (env : Env) (r : ResolvedRemotes) (network : RepoNetworkResult)
    (calls : List Event) : Step (Option Error) :=
  let c := candidates network
  if c.repoNames.length = 0 then
    match r.remotes[0]? with
    | none => ⟨none, r, calls⟩
    | some first => ⟨some none, r, calls ++ [Event.SetRemoteResolution first.Name "base"]⟩
  else
    match c.repoNames[0]? with
    | none => ⟨none, r, calls⟩
    | some first =>
      let asked : Except Error String × List Event :=
        if c.repoNames.length > 1 then
          (env.SurveyAskOne c.repoNames, [Event.SurveyAskOne c.repoNames])
        else (Except.ok first, [])
      match asked.1 with
      | Except.error err => ⟨some (some err), r, calls ++ asked.2⟩
      | Except.ok baseName =>
        match c.repoMap.lookup baseName with
        | none => ⟨none, r, calls ++ asked.2⟩
        | some selectedRepo =>
          match (RemoteForRepo r.remotes (Interface.repository selectedRepo)).1 with
          | some remote =>
            ⟨some (env.SetRemoteResolution remote.Name "base"),
              r, calls ++ asked.2 ++ [Event.SetRemoteResolution remote.Name "base"]⟩
          | none =>
            match r.remotes[0]? with
            | none => ⟨none, r, calls ++ asked.2⟩
            | some remote =>
              let resolution := ghrepo.FullName (Interface.repository selectedRepo)
              ⟨some (env.SetRemoteResolution remote.Name resolution),
                r, calls ++ asked.2 ++ [Event.SetRemoteResolution remote.Name resolution]⟩

/-- The method `SetBaseRepo`. -/
def SetBaseRepo (env : Env) (r : ResolvedRemotes) : Step (Option Error) :=
  if !env.CanPrompt then
    match r.remotes[0]? with
    | none => ⟨none, r, []⟩
    | some first => ⟨some none, r, [Event.SetRemoteResolution first.Name "base"]⟩
  else
    match r.network with
    | some network => SetBaseRepo.choose env r network []
    | none =>
      match resolveNetwork env r with
      | (some err, r, calls) => ⟨some (some err), r, calls⟩
      | (none, r, calls) =>
        match r.network with
        | none => ⟨none, r, calls⟩
        | some network => SetBaseRepo.choose env r network calls

/-- The function `RemoveBaseRepo`: the calls it makes.  The function returns nothing,
and the error of each `git.UnsetRemoteResolution` call is dropped. -/
def RemoveBaseRepo (env : Env) : List Remote → List Event
  | [] => []
  | remote :: rest =>
    if remote.Resolved = "base" then
      let _ := env.UnsetRemoteResolution remote.Name
      Event.UnsetRemoteResolution remote.Name :: RemoveBaseRepo env rest
    else RemoveBaseRepo env rest

/-- The loop of `HeadRepos`: append every non-nil entry the viewer can push to. -/
def HeadRepos.loop : List (Option Repository) → List Repository → List Repository
  | [], results => results
  | none :: rest, results => HeadRepos.loop rest results
  | some repo :: rest, results =>
    if repo.ViewerCanPush then HeadRepos.loop rest (results ++ [repo])
    else HeadRepos.loop rest results

/-- The method `HeadRepos`; a nil slice is the empty list. -/
def HeadRepos (env : Env) (r : ResolvedRemotes) : Step (List Repository × Option Error) :=
  match r.network with
  | some network => ⟨some (HeadRepos.loop network.Repositories [], none), r, []⟩
  | none =>
    match resolveNetwork env r with
    | (some err, r, calls) => ⟨some ([], some err), r, calls⟩
    | (none, r, calls) =>
      match r.network with
      | none => ⟨none, r, calls⟩
      | some network => ⟨some (HeadRepos.loop network.Repositories [], none), r, calls⟩

/-! ## Sequences of queries -/

/-- The three queries of a `ResolvedRemotes` that may consult the forge. -/
inductive Query where
  | BaseRepo
  | SetBaseRepo
  | HeadRepos
deriving DecidableEq, Repr

/-- Run one query: the receiver afterwards and the outside calls made.  A query that
panics leaves the receiver as it was at the panic. -/
def Query.run (env : Env) (r : ResolvedRemotes) : Query → ResolvedRemotes × List Event
  | Query.BaseRepo => ((context.BaseRepo env r).self, (context.BaseRepo env r).calls)
  | Query.SetBaseRepo => ((context.SetBaseRepo env r).self, (context.SetBaseRepo env r).calls)
  | Query.HeadRepos => ((context.HeadRepos env r).self, (context.HeadRepos env r).calls)

/-- Run a sequence of queries on one instance, each under its own behaviour of the
collaborators: the receiver at the end and all outside calls, in order. -/
def runQueries : ResolvedRemotes → List (Env × Query) → ResolvedRemotes × List Event
  | r, [] => (r, [])
  | r, (env, q) :: rest =>
    ((runQueries (q.run env r).1 rest).1, (q.run env r).2 ++ (runQueries (q.run env r).1 rest).2)

/-- The calls made by the selection step: the prompt, only when there are two or more
candidates. -/
def promptCalls (repoNames : List String) : List Event :=
  if repoNames.length > 1 then [Event.SurveyAskOne repoNames] else []

/-- The forge lookup made by a query that needs the network: none when the network
field is already set. -/
def lookupCalls (r : ResolvedRemotes) : List Event :=
  match r.network with
  | some _ => []
  | none => [Event.RepoNetwork (resolveNetwork.repos r.remotes [])]

/-- Number of forge lookups still open to an instance: one while the network field is
unset, none afterwards. -/
def lookupsLeft (r : ResolvedRemotes) : Nat :=
  match r.network with
  | some _ => 0
  | none => 1

/-! ## The candidate list as the specification describes it -/

/-- Full name under which `add` records a repository. -/
def Repository.FullName (r : Repository) : String :=
  ghrepo.FullName (Interface.repository r)

/-- The walk sequence of a network result, in the specification's words: for each
non-null entry in order, its parent (if any), then the entry itself. -/
def walkSequence : List (Option Repository) → List Repository
  | [] => []
  | none :: rest => walkSequence rest
  | some repo :: rest =>
    match repo.Parent with
    | some parent => parent :: repo :: walkSequence rest
    | none => repo :: walkSequence rest

/-- Deduplication by full name that preserves first-seen order, in the
specification's words: every later occurrence of a full name already seen is
removed. -/
def firstByName : List Repository → List Repository
  | [] => []
  | x :: xs => x :: (firstByName xs).filter (fun y => y.FullName != x.FullName)

/-- The accumulators that hold exactly the repositories of `acc`, in order. -/
def Candidates.ofList (acc : List Repository) : Candidates :=
  ⟨acc.map Repository.FullName, acc.map (fun x => (x.FullName, x))⟩

/-! ## Git config as the next load sees it -/

/-- The error returned by `GetBaseRepo` when no remote carries a hint. -/
def errNoDefaultRepo : Error :=
  "a default repo has not been set, use `gh repo default` to set a default repo"

/-- The error returned by `RemoteForRepo` when no remote matches. -/
def errNotFound : Error := "not found"

/-! ## Scenarios

Concrete instances, following the scenarios listed in the specification. -/

namespace Scenario

/-- A forge host. -/
def host : String := "github.com"

/-- Remote `origin` pointing at `a/x`, without hint. -/
def originAX : Remote := ⟨"origin", "", ⟨"a", "x", host⟩⟩

/-- Remote `upstream` pointing at `a/y`, without hint. -/
def upstreamAY : Remote := ⟨"upstream", "", ⟨"a", "y", host⟩⟩

/-- Remote `upstream` pointing at `a/y`, marked as base. -/
def upstreamAYBase : Remote := ⟨"upstream", "base", ⟨"a", "y", host⟩⟩

/-- Remote `origin` pointing at `a/x` on host `h1`, with the full-name hint `c/w`. -/
def originHintCW : Remote := ⟨"origin", "c/w", ⟨"a", "x", "h1"⟩⟩

/-- Remote `origin` pointing at the fork `me/fork`. -/
def originFork : Remote := ⟨"origin", "", ⟨"me", "fork", host⟩⟩

/-- Remote `upstream` pointing at `org/proj`. -/
def upstreamProj : Remote := ⟨"upstream", "", ⟨"org", "proj", host⟩⟩

/-- Repository `upstream/proj`, not a fork, read-only. -/
def repoUpstream : Repository := Repository.mk ⟨"upstream", "proj", host⟩ none false

/-- Repository `org/proj` as the forge reports it when it is not a fork. -/
def repoProj : Repository := Repository.mk ⟨"org", "proj", host⟩ none false

/-- Repository `org/proj` as the forge reports it when it is a fork of `upstream/proj`. -/
def repoProjForked : Repository := Repository.mk ⟨"org", "proj", host⟩ (some repoUpstream) false

/-- Repository `me/fork`, a fork of `org/proj`, writable. -/
def repoFork : Repository := Repository.mk ⟨"me", "fork", host⟩ (some repoProj) true

/-- A parser for `owner/name` strings that knows the names used in the scenarios. -/
def parse (s : String) : Except Error Interface :=
  if s = "c/w" then Except.ok (Interface.repo ⟨"c", "w", host⟩)
  else if s = "org/proj" then Except.ok (Interface.repo ⟨"org", "proj", host⟩)
  else if s = "b/z" then Except.ok (Interface.repo ⟨"b", "z", host⟩)
  else Except.error "expected the OWNER/REPO format"

/-- An interactive terminal, a forge answering with the fork network of scenario 5, a
user who picks the first option, and a git config that accepts every write. -/
def env : Env where
  CanPrompt := true
  RepoNetwork := fun _ => (⟨[some repoFork, some repoProj]⟩, none)
  SurveyAskOne := fun options => Except.ok (options.headD "")
  SetRemoteResolution := fun _ _ => none
  UnsetRemoteResolution := fun _ => none
  FromFullName := parse

/-- The same world, without a terminal to prompt on. -/
def envNoPrompt : Env := { env with CanPrompt := false }

/-- The same world, with a forge whose lookup fails. -/
def envForgeDown : Env :=
  { env with RepoNetwork := fun _ => (⟨[]⟩, some "HTTP 502") }

/-- The same world, with a git config that rejects every write. -/
def envReadOnly : Env :=
  { env with SetRemoteResolution := fun _ _ => some "could not lock config file" }

/-- A world without a terminal to prompt on and with a git config that rejects every
write. -/
def envReadOnlyNoPrompt : Env := { envReadOnly with CanPrompt := false }

/-- Scenario 6 with a git config that rejects every write: the forge knows none of the
remotes. -/
def envReadOnlyUnknown : Env :=
  { envReadOnly with RepoNetwork := fun _ => (⟨[none]⟩, none) }

/-- Six remotes: the four above and two more. -/
def sixRemotes : ResolvedRemotes :=
  ⟨none, [originFork, upstreamProj, originAX, upstreamAY,
    ⟨"fifth", "", ⟨"e", "five", host⟩⟩, ⟨"sixth", "", ⟨"f", "six", host⟩⟩], none⟩

/-- The same five remotes followed by two other ones. -/
def sevenRemotes : ResolvedRemotes :=
  ⟨none, [originFork, upstreamProj, originAX, upstreamAY,
    ⟨"fifth", "", ⟨"e", "five", host⟩⟩, ⟨"other", "", ⟨"g", "seven", host⟩⟩,
    ⟨"last", "", ⟨"h", "eight", host⟩⟩], none⟩

/-- A prompt that fails when offered nothing and otherwise answers with the first
option. -/
def askFirst : List String → Except Error String
  | [] => Except.error "no options"
  | option :: _ => Except.ok option

/-- The world of scenario 5 with the prompt `askFirst`. -/
def envAskFirst : Env := { env with SurveyAskOne := askFirst }

/-- Scenario 1: two remotes and the override `b/z`. -/
def overridden : ResolvedRemotes :=
  ⟨some (Interface.repo ⟨"b", "z", host⟩), [originAX, upstreamAY], none⟩

/-- Scenario 2, with the hint on the second remote. -/
def hintedBase : ResolvedRemotes := ⟨none, [originAX, upstreamAYBase], none⟩

/-- Scenario 3: a single remote with a full-name hint. -/
def hintedFullName : ResolvedRemotes := ⟨none, [originHintCW], none⟩

/-- Scenario 4: two remotes without hints. -/
def unhinted : ResolvedRemotes := ⟨none, [originAX, upstreamAY], none⟩

/-- Scenario 5: a fork and its parent as remotes, no hints. -/
def forkAndParent : ResolvedRemotes := ⟨none, [originFork, upstreamProj], none⟩

/-- A fork chain as the forge reports it: `me/fork` is a fork of `org/proj`, which is
itself a fork of `upstream/proj`. -/
def chain : RepoNetworkResult := ⟨[some repoFork, some repoProjForked]⟩

/-- The fork network of scenario 5. -/
def forkNetwork : RepoNetworkResult := ⟨[some repoFork, some repoProj]⟩

end Scenario

/-! ## Lemmas on the hint loop -/

theorem hints_append_of_empty (env : Env) (pre rest : List Remote)
    (hpre : ∀ y ∈ pre, y.Resolved = "") :
    BaseRepo.hints env (pre ++ rest) = BaseRepo.hints env rest := by
  induction pre with
  | nil => rfl
  | cons y ys ih =>
    have hy : y.Resolved = "" := hpre y (List.mem_cons_self _ _)
    have hys : ∀ z ∈ ys, z.Resolved = "" := fun z hz => hpre z (List.mem_cons_of_mem _ hz)
    simp [BaseRepo.hints, hy, ih hys]

theorem hints_of_all_empty (env : Env) (l : List Remote)
    (h : ∀ y ∈ l, y.Resolved = "") : BaseRepo.hints env l = none := by
  have := hints_append_of_empty env l [] h
  simpa [BaseRepo.hints] using this

theorem hints_cons_of_hint (env : Env) (x : Remote) (post : List Remote)
    (hx : x.Resolved ≠ "") :
    BaseRepo.hints env (x :: post) =
      some (if x.Resolved = "base" then (some (Interface.remote x), none)
        else match env.FromFullName x.Resolved with
          | Except.error err => (none, some err)
          | Except.ok repo =>
            (some (Interface.repo ⟨repo.RepoOwner, repo.RepoName, x.Repo.host⟩), none)) := by
  by_cases hb : x.Resolved = "base"
  · simp [BaseRepo.hints, hb]
  · simp only [BaseRepo.hints, hb, hx, if_false, ne_eq, not_false_eq_true, if_true]
    cases env.FromFullName x.Resolved <;> rfl

theorem hints_isSome_of_mem (env : Env) (l : List Remote) (x : Remote) (hx : x ∈ l)
    (hne : x.Resolved ≠ "") : ∃ res, BaseRepo.hints env l = some res := by
  induction l with
  | nil => cases hx
  | cons y ys ih =>
    by_cases hy : y.Resolved = ""
    · have hxy : x ∈ ys := by
        rcases List.mem_cons.mp hx with h | h
        · exact absurd (h ▸ hy) hne
        · exact h
      obtain ⟨res, hres⟩ := ih hxy
      exact ⟨res, by simp [BaseRepo.hints, hy, hres]⟩
    · exact ⟨_, hints_cons_of_hint env y ys hy⟩

/-! ## Theorems on `BaseRepo`: override, hints, non-interactive fallback -/

/-- C1: when `baseOverride` is set, `BaseRepo` returns exactly the override with no
error, whatever the remotes, their hints, the network field and the collaborators
are; it makes no outside call (no forge lookup, no prompt, no git-config write) and
leaves the receiver as it was. -/
theorem BaseRepo_override (env : Env) (r : ResolvedRemotes) (baseOverride : Interface)
    (h : r.baseOverride = some baseOverride) :
    BaseRepo env r = ⟨some (some baseOverride, none), r, []⟩ := by
  simp [BaseRepo, h]

theorem BaseRepo_override_witness :
    Scenario.overridden.baseOverride = some (Interface.repo ⟨"b", "z", Scenario.host⟩) ∧
    BaseRepo Scenario.envForgeDown Scenario.overridden =
      ⟨some (some (Interface.repo ⟨"b", "z", Scenario.host⟩), none), Scenario.overridden, []⟩ :=
  ⟨rfl, BaseRepo_override Scenario.envForgeDown Scenario.overridden _ rfl⟩

/-- C2: without an override, the first remote in list order whose resolution is
non-empty decides the result of `BaseRepo`: for the resolution `"base"` the remote
itself is returned; any other resolution is parsed as a full name, and the result is
the parse error, or the repository made of the parsed owner, the parsed name and that
remote's host. -/
theorem BaseRepo_first_hint (env : Env) (r : ResolvedRemotes) (pre post : List Remote)
    (x : Remote) (hov : r.baseOverride = none) (hsplit : r.remotes = pre ++ x :: post)
    (hpre : ∀ y ∈ pre, y.Resolved = "") (hx : x.Resolved ≠ "") :
    (BaseRepo env r).ret =
      some (if x.Resolved = "base" then (some (Interface.remote x), none)
        else match env.FromFullName x.Resolved with
          | Except.error err => (none, some err)
          | Except.ok repo =>
            (some (Interface.repo ⟨repo.RepoOwner, repo.RepoName, x.Repo.host⟩), none)) := by
  have h := hints_append_of_empty env pre (x :: post) hpre
  rw [hints_cons_of_hint env x post hx, ← hsplit] at h
  simp [BaseRepo, hov, h]

theorem BaseRepo_first_hint_witness :
    (BaseRepo Scenario.env Scenario.hintedBase).ret =
      some (some (Interface.remote Scenario.upstreamAYBase), none) :=
  BaseRepo_first_hint Scenario.env Scenario.hintedBase [Scenario.originAX] []
    Scenario.upstreamAYBase rfl rfl (by simp [Scenario.originAX]) (by decide)

/-- C3: without an override, with every remote's resolution empty and a terminal that
cannot prompt, `BaseRepo` returns the first remote with no error, makes no outside
call (no forge lookup, no prompt, no git-config write) and leaves the receiver, hence
its network field, as it was. -/
theorem BaseRepo_no_prompt (env : Env) (r : ResolvedRemotes) (first : Remote)
    (rest : List Remote) (hov : r.baseOverride = none) (hrem : r.remotes = first :: rest)
    (hres : ∀ y ∈ r.remotes, y.Resolved = "") (hp : env.CanPrompt = false) :
    BaseRepo env r = ⟨some (some (Interface.remote first), none), r, []⟩ := by
  have hh := hints_of_all_empty env r.remotes hres
  simp only [BaseRepo, hov, hh, hp]
  simp [hrem]

theorem BaseRepo_no_prompt_witness :
    BaseRepo Scenario.envNoPrompt Scenario.unhinted =
      ⟨some (some (Interface.remote Scenario.originAX), none), Scenario.unhinted, []⟩ ∧
    (BaseRepo Scenario.envNoPrompt Scenario.unhinted).self.network = none :=
  ⟨BaseRepo_no_prompt Scenario.envNoPrompt Scenario.unhinted Scenario.originAX
      [Scenario.upstreamAY] rfl rfl (by decide) rfl, rfl⟩

/-- C4: when some remote carries a valid resolution hint (`"base"`, or a non-empty
string that parses as a full name), `BaseRepo` returns (it does not panic) without any
outside call, so neither the forge nor the prompt is used and git config is not
written, and the receiver, hence its network field, is as before the call; this holds
for every answer of `CanPrompt`. -/
theorem BaseRepo_hint_no_calls (env : Env) (r : ResolvedRemotes) (x : Remote)
    (hx : x ∈ r.remotes)
    (hvalid : x.Resolved = "base" ∨
      (x.Resolved ≠ "" ∧ ∃ repo, env.FromFullName x.Resolved = Except.ok repo)) :
    (∃ res, (BaseRepo env r).ret = some res) ∧ (BaseRepo env r).calls = [] ∧
      (BaseRepo env r).self = r := by
  have hne : x.Resolved ≠ "" := by
    rcases hvalid with h | h
    · rw [h]; decide
    · exact h.1
  obtain ⟨res, hres⟩ := hints_isSome_of_mem env r.remotes x hx hne
  cases hov : r.baseOverride with
  | some o => simp [BaseRepo, hov]
  | none => simp [BaseRepo, hov, hres]

theorem BaseRepo_hint_no_calls_witness :
    (∃ res, (BaseRepo Scenario.env Scenario.hintedFullName).ret = some res) ∧
    (BaseRepo Scenario.env Scenario.hintedFullName).calls = [] ∧
    (BaseRepo Scenario.env Scenario.hintedFullName).self = Scenario.hintedFullName :=
  BaseRepo_hint_no_calls Scenario.env Scenario.hintedFullName Scenario.originHintCW
    (by simp [Scenario.hintedFullName])
    (Or.inr ⟨by decide, Interface.repo ⟨"c", "w", Scenario.host⟩, rfl⟩)

/-! ## Selection and persistence -/

theorem RemoteForRepo_fst (remotes : List Remote) (repo : Interface) :
    (RemoteForRepo remotes repo).1 =
      remotes.find? (fun x => ghrepo.IsSame (Interface.remote x) repo) := by
  induction remotes with
  | nil => rfl
  | cons y ys ih =>
    by_cases h : ghrepo.IsSame (Interface.remote y) repo = true
    · simp [RemoteForRepo, h]
    · simp [RemoteForRepo, h, ih]

theorem BaseRepo_choose_selected (env : Env) (r : ResolvedRemotes)
    (network : RepoNetworkResult) (calls : List Event) (baseName : String)
    (selectedRepo : Repository) (first : Remote) (rest : List Remote)
    (hrem : r.remotes = first :: rest)
    (hsel : (candidates network).repoNames = [baseName] ∨
      ((candidates network).repoNames.length > 1 ∧
        env.SurveyAskOne (candidates network).repoNames = Except.ok baseName))
    (hmap : (candidates network).repoMap.lookup baseName = some selectedRepo) :
    BaseRepo.choose env r network calls =
      match r.remotes.find? (fun x =>
          ghrepo.IsSame (Interface.remote x) (Interface.repository selectedRepo)) with
      | some remote =>
        ⟨some (some (Interface.repository selectedRepo),
            env.SetRemoteResolution remote.Name "base"), r,
          calls ++ promptCalls (candidates network).repoNames ++
            [Event.SetRemoteResolution remote.Name "base"]⟩
      | none =>
        ⟨some (some (Interface.repository selectedRepo),
            env.SetRemoteResolution first.Name
              (ghrepo.FullName (Interface.repository selectedRepo))), r,
          calls ++ promptCalls (candidates network).repoNames ++
            [Event.SetRemoteResolution first.Name
              (ghrepo.FullName (Interface.repository selectedRepo))]⟩ := by
  rcases hsel with h1 | ⟨hlen, hask⟩
  · simp only [BaseRepo.choose, h1, promptCalls, RemoteForRepo_fst]
    simp only [List.length_singleton, one_ne_zero, if_false, lt_irrefl,
      List.getElem?_cons_zero, hmap]
    cases hf : r.remotes.find? (fun x =>
        ghrepo.IsSame (Interface.remote x) (Interface.repository selectedRepo)) with
    | some remote => simp
    | none => simp [hrem]
  · obtain ⟨n0, tl, hn⟩ : ∃ n0 tl, (candidates network).repoNames = n0 :: tl := by
      cases hc : (candidates network).repoNames with
      | nil => rw [hc] at hlen; simp at hlen
      | cons n0 tl => exact ⟨n0, tl, rfl⟩
    have hne : (candidates network).repoNames.length ≠ 0 := by omega
    have h0 : (candidates network).repoNames[0]? = some n0 := by rw [hn]; simp
    simp only [BaseRepo.choose, promptCalls, RemoteForRepo_fst, hne, if_false, h0, hlen,
      if_true, hask, hmap]
    cases hf : r.remotes.find? (fun x =>
        ghrepo.IsSame (Interface.remote x) (Interface.repository selectedRepo)) with
    | some remote => simp
    | none => simp [hrem]

theorem BaseRepo_eq_choose (env : Env) (r : ResolvedRemotes) (network : RepoNetworkResult)
    (hov : r.baseOverride = none) (hres : ∀ y ∈ r.remotes, y.Resolved = "")
    (hp : env.CanPrompt = true)
    (hnet : r.network = some network ∨
      (r.network = none ∧
        env.RepoNetwork (resolveNetwork.repos r.remotes []) = (network, none))) :
    BaseRepo env r =
      BaseRepo.choose env { r with network := some network } network (lookupCalls r) := by
  have hh := hints_of_all_empty env r.remotes hres
  rcases hnet with h | ⟨h, hforge⟩
  · have hr : ({ r with network := some network } : ResolvedRemotes) = r := by
      cases r; simp_all
    rw [hr]
    simp [BaseRepo, hov, hh, hp, h, lookupCalls]
  · simp [BaseRepo, hov, hh, hp, h, lookupCalls, resolveNetwork, hforge]

theorem filter_set_lookupCalls (r : ResolvedRemotes) (names : List String) (e : Event)
    (he : e.isSetRemoteResolution = true) :
    (lookupCalls r ++ promptCalls names ++ [e]).filter Event.isSetRemoteResolution = [e] := by
  have h1 : (lookupCalls r).filter Event.isSetRemoteResolution = [] := by
    unfold lookupCalls; cases r.network <;> simp [Event.isSetRemoteResolution]
  have h2 : (promptCalls names).filter Event.isSetRemoteResolution = [] := by
    unfold promptCalls; split <;> simp [Event.isSetRemoteResolution]
  simp [List.filter_append, h1, h2, he]

/-- C5: whenever `BaseRepo` selects a candidate (no override, no hints, prompting
possible, network known without error, and `baseName` — the only candidate, or the
answer of the prompt — is recorded in `repoMap` as `selectedRepo`): if some remote is
the same repository as the selection, exactly one git-config write is made, of
`"base"` to the first such remote; otherwise exactly one write is made, of the
selection's full name to the first remote.  In both cases `BaseRepo` returns the
selected repository together with the outcome of that write, so the repository is
returned also when the write fails. -/
theorem BaseRepo_persist (env : Env) (r : ResolvedRemotes) (network : RepoNetworkResult)
    (baseName : String) (selectedRepo : Repository) (first : Remote) (rest : List Remote)
    (hov : r.baseOverride = none) (hres : ∀ y ∈ r.remotes, y.Resolved = "")
    (hp : env.CanPrompt = true) (hrem : r.remotes = first :: rest)
    (hnet : r.network = some network ∨
      (r.network = none ∧
        env.RepoNetwork (resolveNetwork.repos r.remotes []) = (network, none)))
    (hsel : (candidates network).repoNames = [baseName] ∨
      ((candidates network).repoNames.length > 1 ∧
        env.SurveyAskOne (candidates network).repoNames = Except.ok baseName))
    (hmap : (candidates network).repoMap.lookup baseName = some selectedRepo) :
    (∀ remote, r.remotes.find? (fun x =>
        ghrepo.IsSame (Interface.remote x) (Interface.repository selectedRepo)) = some remote →
      (BaseRepo env r).ret = some (some (Interface.repository selectedRepo),
        env.SetRemoteResolution remote.Name "base") ∧
      (BaseRepo env r).calls.filter Event.isSetRemoteResolution =
        [Event.SetRemoteResolution remote.Name "base"]) ∧
    (r.remotes.find? (fun x =>
        ghrepo.IsSame (Interface.remote x) (Interface.repository selectedRepo)) = none →
      (BaseRepo env r).ret = some (some (Interface.repository selectedRepo),
        env.SetRemoteResolution first.Name
          (ghrepo.FullName (Interface.repository selectedRepo))) ∧
      (BaseRepo env r).calls.filter Event.isSetRemoteResolution =
        [Event.SetRemoteResolution first.Name
          (ghrepo.FullName (Interface.repository selectedRepo))]) := by
  have hc := BaseRepo_choose_selected env { r with network := some network } network
    (lookupCalls r) baseName selectedRepo first rest hrem hsel hmap
  rw [← BaseRepo_eq_choose env r network hov hres hp hnet] at hc
  constructor
  · intro remote hf
    simp only [hf] at hc
    rw [hc]
    exact ⟨rfl, filter_set_lookupCalls r _ _ rfl⟩
  · intro hf
    simp only [hf] at hc
    rw [hc]
    exact ⟨rfl, filter_set_lookupCalls r _ _ rfl⟩

theorem BaseRepo_persist_witness :
    (BaseRepo Scenario.envReadOnly Scenario.forkAndParent).ret =
      some (some (Interface.repository Scenario.repoProj), some "could not lock config file") ∧
    (BaseRepo Scenario.envReadOnly Scenario.forkAndParent).calls.filter
        Event.isSetRemoteResolution = [Event.SetRemoteResolution "upstream" "base"] :=
  (BaseRepo_persist Scenario.envReadOnly Scenario.forkAndParent
    ⟨[some Scenario.repoFork, some Scenario.repoProj]⟩ "org/proj" Scenario.repoProj
    Scenario.originFork [Scenario.upstreamProj] rfl (by decide) rfl rfl
    (Or.inr ⟨rfl, rfl⟩) (Or.inr ⟨by decide, rfl⟩) rfl).1 Scenario.upstreamProj rfl

/-! ## Repeated queries and the network cache -/

/-- C6: the code at the failing input.  With a forge whose lookup fails, the first
`BaseRepo` on an instance without hints returns the forge error, and stores the
(empty) result of the failed lookup in the network field; the second `BaseRepo` on the
same instance, under the same collaborators, finds the field set, makes no call at
all and returns the first remote with no error.  The two results differ. -/
theorem BaseRepo_twice_forge_failure :
    (BaseRepo Scenario.envForgeDown Scenario.unhinted).ret = some (none, some "HTTP 502") ∧
    (BaseRepo Scenario.envForgeDown Scenario.unhinted).self.network = some ⟨[]⟩ ∧
    (BaseRepo Scenario.envForgeDown (BaseRepo Scenario.envForgeDown Scenario.unhinted).self).ret =
      some (some (Interface.remote Scenario.originAX), none) ∧
    (BaseRepo Scenario.envForgeDown (BaseRepo Scenario.envForgeDown Scenario.unhinted).self).calls =
      [] ∧
    (BaseRepo Scenario.envForgeDown (BaseRepo Scenario.envForgeDown Scenario.unhinted).self).ret ≠
      (BaseRepo Scenario.envForgeDown Scenario.unhinted).ret := by
  refine ⟨rfl, rfl, rfl, rfl, ?_⟩
  intro h
  have h2 : some (some (Interface.remote Scenario.originAX), (none : Option Error)) =
      some (none, some "HTTP 502") := h
  simp at h2


theorem BaseRepo_choose_self (env : Env) (r : ResolvedRemotes) (network : RepoNetworkResult)
    (calls : List Event) : (BaseRepo.choose env r network calls).self = r := by
  simp only [BaseRepo.choose]
  split_ifs <;> (repeat' split) <;> rfl

theorem BaseRepo_choose_lookups (env : Env) (r : ResolvedRemotes)
    (network : RepoNetworkResult) (calls : List Event) :
    (BaseRepo.choose env r network calls).calls.countP Event.isRepoNetwork =
      calls.countP Event.isRepoNetwork := by
  simp only [BaseRepo.choose]
  split_ifs <;> (repeat' split) <;> simp [List.countP_append, Event.isRepoNetwork]

theorem SetBaseRepo_choose_self (env : Env) (r : ResolvedRemotes)
    (network : RepoNetworkResult) (calls : List Event) :
    (SetBaseRepo.choose env r network calls).self = r := by
  simp only [SetBaseRepo.choose]
  split_ifs <;> (repeat' split) <;> rfl

theorem SetBaseRepo_choose_lookups (env : Env) (r : ResolvedRemotes)
    (network : RepoNetworkResult) (calls : List Event) :
    (SetBaseRepo.choose env r network calls).calls.countP Event.isRepoNetwork =
      calls.countP Event.isRepoNetwork := by
  simp only [SetBaseRepo.choose]
  split_ifs <;> (repeat' split) <;> simp [List.countP_append, Event.isRepoNetwork]

theorem BaseRepo_lookups (env : Env) (r : ResolvedRemotes) :
    (BaseRepo env r).calls.countP Event.isRepoNetwork + lookupsLeft (BaseRepo env r).self =
      lookupsLeft r := by
  unfold BaseRepo
  cases hov : r.baseOverride with
  | some o => simp
  | none =>
    cases hh : BaseRepo.hints env r.remotes with
    | some res => simp
    | none =>
      cases hp : env.CanPrompt with
      | false => cases hr : r.remotes[0]? <;> simp
      | true =>
        cases hn : r.network with
        | some network =>
          simp [BaseRepo_choose_self, BaseRepo_choose_lookups, lookupsLeft, hn]
        | none =>
          cases herr : (env.RepoNetwork (resolveNetwork.repos r.remotes [])).2 with
          | some err => simp [resolveNetwork, herr, lookupsLeft, Event.isRepoNetwork, hn]
          | none =>
            simp [resolveNetwork, herr, lookupsLeft, Event.isRepoNetwork, hn,
              BaseRepo_choose_self, BaseRepo_choose_lookups]

theorem SetBaseRepo_lookups (env : Env) (r : ResolvedRemotes) :
    (SetBaseRepo env r).calls.countP Event.isRepoNetwork +
      lookupsLeft (SetBaseRepo env r).self = lookupsLeft r := by
  unfold SetBaseRepo
  cases hp : env.CanPrompt with
  | false => cases hr : r.remotes[0]? <;> simp [Event.isRepoNetwork]
  | true =>
    cases hn : r.network with
    | some network =>
      simp [SetBaseRepo_choose_self, SetBaseRepo_choose_lookups, lookupsLeft, hn]
    | none =>
      cases herr : (env.RepoNetwork (resolveNetwork.repos r.remotes [])).2 with
      | some err => simp [resolveNetwork, herr, lookupsLeft, Event.isRepoNetwork, hn]
      | none =>
        simp [resolveNetwork, herr, lookupsLeft, Event.isRepoNetwork, hn,
          SetBaseRepo_choose_self, SetBaseRepo_choose_lookups]

theorem HeadRepos_lookups (env : Env) (r : ResolvedRemotes) :
    (HeadRepos env r).calls.countP Event.isRepoNetwork + lookupsLeft (HeadRepos env r).self =
      lookupsLeft r := by
  unfold HeadRepos
  cases hn : r.network with
  | some network => simp [lookupsLeft, hn]
  | none =>
    cases herr : (env.RepoNetwork (resolveNetwork.repos r.remotes [])).2 with
    | some err => simp [resolveNetwork, herr, lookupsLeft, Event.isRepoNetwork, hn]
    | none => simp [resolveNetwork, herr, lookupsLeft, Event.isRepoNetwork, hn]

theorem Query_run_lookups (env : Env) (r : ResolvedRemotes) (q : Query) :
    (q.run env r).2.countP Event.isRepoNetwork + lookupsLeft (q.run env r).1 =
      lookupsLeft r := by
  cases q
  · exact BaseRepo_lookups env r
  · exact SetBaseRepo_lookups env r
  · exact HeadRepos_lookups env r

theorem runQueries_lookups (qs : List (Env × Query)) (r : ResolvedRemotes) :
    (runQueries r qs).2.countP Event.isRepoNetwork + lookupsLeft (runQueries r qs).1 =
      lookupsLeft r := by
  induction qs generalizing r with
  | nil => simp [runQueries]
  | cons eq rest ih =>
    obtain ⟨env, q⟩ := eq
    have h1 := Query_run_lookups env r q
    have h2 := ih (q.run env r).1
    simp only [runQueries, List.countP_append]
    omega

/-- C7: over any sequence of `BaseRepo`, `SetBaseRepo` and `HeadRepos` calls on one
instance, whatever the collaborators do at each call, the forge lookup
(`api.RepoNetwork`, reached through `resolveNetwork`) is made at most once; and on an
instance whose network field is already set it is not made at all. -/
theorem forge_lookup_at_most_once (r : ResolvedRemotes) (qs : List (Env × Query)) :
    (runQueries r qs).2.countP Event.isRepoNetwork ≤ 1 ∧
      (r.network = none ∨ (runQueries r qs).2.countP Event.isRepoNetwork = 0) := by
  have h := runQueries_lookups qs r
  cases hn : r.network with
  | none =>
    simp only [lookupsLeft, hn] at h
    exact ⟨by omega, Or.inl rfl⟩
  | some network =>
    simp only [lookupsLeft, hn] at h
    exact ⟨by omega, Or.inr (by omega)⟩

/-! ## The candidate list -/

theorem walk_eq_foldl (l : List (Option Repository)) (s : Candidates) :
    walk l s = (walkSequence l).foldl add s := by
  induction l generalizing s with
  | nil => rfl
  | cons o rest ih =>
    cases o with
    | none => simpa [walk, walkSequence] using ih s
    | some repo =>
      cases hp : repo.Parent with
      | none => simp [walk, walkSequence, hp, ih]
      | some parent => simp [walk, walkSequence, hp, ih]

theorem lookup_ofList_eq_none (acc : List Repository) (fn : String)
    (h : fn ∉ acc.map Repository.FullName) :
    (acc.map (fun x => (x.FullName, x))).lookup fn = none := by
  induction acc with
  | nil => rfl
  | cons y ys ih =>
    simp only [List.map_cons, List.mem_cons, not_or] at h
    simp only [List.map_cons, List.lookup_cons]
    have : (fn == y.FullName) = false := by simpa using h.1
    rw [this]
    exact ih h.2

theorem lookup_ofList_isSome (acc : List Repository) (fn : String)
    (h : fn ∈ acc.map Repository.FullName) :
    ∃ x, (acc.map (fun x => (x.FullName, x))).lookup fn = some x := by
  induction acc with
  | nil => simp at h
  | cons y ys ih =>
    simp only [List.map_cons, List.lookup_cons]
    by_cases hy : fn = y.FullName
    · exact ⟨y, by simp [hy]⟩
    · have : (fn == y.FullName) = false := by simpa using hy
      rw [this]
      simp only [List.map_cons, List.mem_cons] at h
      rcases h with h | h
      · exact absurd h hy
      · exact ih h

theorem add_ofList_of_mem (acc : List Repository) (r : Repository)
    (h : r.FullName ∈ acc.map Repository.FullName) :
    add (Candidates.ofList acc) r = Candidates.ofList acc := by
  have hfn : ghrepo.FullName (Interface.repository r) = r.FullName := rfl
  obtain ⟨x, hx⟩ := lookup_ofList_isSome acc r.FullName h
  simp only [add, Candidates.ofList, hfn, hx]

theorem add_ofList_of_not_mem (acc : List Repository) (r : Repository)
    (h : r.FullName ∉ acc.map Repository.FullName) :
    add (Candidates.ofList acc) r = Candidates.ofList (acc ++ [r]) := by
  have hfn : ghrepo.FullName (Interface.repository r) = r.FullName := rfl
  have hx := lookup_ofList_eq_none acc r.FullName h
  simp only [add, Candidates.ofList, hfn, hx, List.map_append, List.map_cons, List.map_nil]

theorem add_ofList (acc : List Repository) (r : Repository) :
    add (Candidates.ofList acc) r =
      Candidates.ofList (acc ++ [r].filter (fun y => decide (y.FullName ∉ acc.map Repository.FullName))) := by
  by_cases h : r.FullName ∈ acc.map Repository.FullName
  · have hf : [r].filter (fun y => decide (y.FullName ∉ acc.map Repository.FullName)) = [] := by
      rw [List.filter_cons]; simp only [h, not_true_eq_false, decide_False]; rfl
    rw [hf, List.append_nil, add_ofList_of_mem acc r h]
  · have hf : [r].filter (fun y => decide (y.FullName ∉ acc.map Repository.FullName)) = [r] := by
      rw [List.filter_cons]; simp only [h, not_false_eq_true, decide_True]; rfl
    rw [hf, add_ofList_of_not_mem acc r h]

theorem foldl_add_ofList (w : List Repository) (acc : List Repository) :
    w.foldl add (Candidates.ofList acc) =
      Candidates.ofList
        (acc ++ (firstByName w).filter (fun y => decide (y.FullName ∉ acc.map Repository.FullName))) := by
  induction w generalizing acc with
  | nil => simp [firstByName]
  | cons x xs ih =>
    rw [List.foldl_cons, add_ofList, ih]
    congr 1
    by_cases h : x.FullName ∈ acc.map Repository.FullName
    · simp only [firstByName, List.filter_cons, h, not_true_eq_false, decide_False,
        Bool.false_eq_true, if_false, List.filter_nil, List.append_nil, List.filter_filter]
      congr 1
      apply List.filter_congr
      intro y _
      by_cases hy : y.FullName ∈ acc.map Repository.FullName
      · simp [hy]
      · have : y.FullName ≠ x.FullName := fun e => hy (e ▸ h)
        simp [hy, this]
    · simp only [firstByName, List.filter_cons, h, not_false_eq_true, decide_True, if_true,
        List.filter_nil, List.append_assoc, List.singleton_append, List.filter_filter]
      congr 2
      apply List.filter_congr
      intro y _
      by_cases hy : y.FullName ∈ acc.map Repository.FullName
      · simp [hy]
      · by_cases hxy : y.FullName = x.FullName
        · simp [hy, hxy]
        · simp [hy, hxy]

theorem candidates_eq_ofList (network : RepoNetworkResult) :
    candidates network = Candidates.ofList (firstByName (walkSequence network.Repositories)) := by
  have h := foldl_add_ofList (walkSequence network.Repositories) []
  have h0 : Candidates.ofList [] = ⟨[], []⟩ := rfl
  rw [candidates, walk_eq_foldl, ← h0, h]
  simp

theorem firstByName_sublist (w : List Repository) : (firstByName w).Sublist w := by
  induction w with
  | nil => exact List.Sublist.refl _
  | cons x xs ih =>
    exact List.Sublist.cons₂ x ((List.filter_sublist _).trans ih)

theorem firstByName_names_nodup (w : List Repository) :
    ((firstByName w).map Repository.FullName).Nodup := by
  induction w with
  | nil => simp [firstByName]
  | cons x xs ih =>
    simp only [firstByName, List.map_cons, List.nodup_cons]
    constructor
    · intro hmem
      obtain ⟨y, hy, hyx⟩ := List.mem_map.mp hmem
      have := (List.mem_filter.mp hy).2
      simp [hyx] at this
    · exact ih.sublist ((List.filter_sublist _).map _)

theorem firstByName_names_mem (w : List Repository) (x : Repository) (hx : x ∈ w) :
    x.FullName ∈ (firstByName w).map Repository.FullName := by
  induction w with
  | nil => cases hx
  | cons y ys ih =>
    simp only [firstByName, List.map_cons, List.mem_cons]
    by_cases hxy : x.FullName = y.FullName
    · exact Or.inl hxy
    · right
      rcases List.mem_cons.mp hx with h | h
      · exact absurd (h ▸ rfl) hxy
      · obtain ⟨z, hz, hzx⟩ := List.mem_map.mp (ih h)
        refine List.mem_map.mpr ⟨z, List.mem_filter.mpr ⟨hz, ?_⟩, hzx⟩
        simpa [hzx] using hxy

theorem lookup_filter_ne (l : List Repository) (fn other : String) (h : fn ≠ other) :
    ((l.filter (fun y => y.FullName != other)).map (fun x => (x.FullName, x))).lookup fn =
      (l.map (fun x => (x.FullName, x))).lookup fn := by
  induction l with
  | nil => rfl
  | cons y ys ih =>
    by_cases hy : y.FullName = other
    · have hfy : (fn == other) = false := by simpa using h
      simp [List.filter_cons, hy, List.lookup_cons, hfy, ih]
    · by_cases hfy : fn = y.FullName
      · simp [List.filter_cons, hy, List.lookup_cons, hfy]
      · have hfy2 : (fn == y.FullName) = false := by simpa using hfy
        simp [List.filter_cons, hy, List.lookup_cons, hfy2, ih]

theorem lookup_firstByName (w : List Repository) (fn : String) :
    ((firstByName w).map (fun x => (x.FullName, x))).lookup fn =
      w.find? (fun y => y.FullName == fn) := by
  induction w with
  | nil => rfl
  | cons y ys ih =>
    by_cases hfy : fn = y.FullName
    · simp [firstByName, List.lookup_cons, List.find?_cons, hfy]
    · have h1 : (fn == y.FullName) = false := by simpa using hfy
      have h2 : (y.FullName == fn) = false := by simpa using fun e => hfy e.symm
      simp only [firstByName, List.map_cons, List.lookup_cons, h1, List.find?_cons, h2]
      rw [lookup_filter_ne _ _ _ hfy, ih]

/-- C9: the candidate list built from a network result is the walk sequence (for each
non-null entry in order: its parent if any, then the entry itself) with every later
occurrence of an already-seen full name removed, `repoNames` holding the names and
`repoMap` the repositories.  Consequently `repoNames` has no duplicates, the full
name of every walked repository occurs in it, and the repository recorded in
`repoMap` for a name is the first one walked with that name. -/
theorem candidates_first_seen (network : RepoNetworkResult) :
    (candidates network).repoNames =
        (firstByName (walkSequence network.Repositories)).map Repository.FullName ∧
      (candidates network).repoMap =
        (firstByName (walkSequence network.Repositories)).map (fun x => (x.FullName, x)) ∧
      (candidates network).repoNames.Nodup ∧
      (walkSequence network.Repositories).map Repository.FullName ⊆
        (candidates network).repoNames ∧
      ∀ fn : String, (candidates network).repoMap.lookup fn =
        (walkSequence network.Repositories).find? (fun y => y.FullName == fn) := by
  rw [candidates_eq_ofList]
  refine ⟨rfl, rfl, firstByName_names_nodup _, ?_, fun fn => lookup_firstByName _ fn⟩
  intro fn hfn
  obtain ⟨x, hx, hxfn⟩ := List.mem_map.mp hfn
  exact hxfn ▸ firstByName_names_mem _ x hx

/-! ## Order of the candidate list -/

theorem walkSequence_append (l₁ l₂ : List (Option Repository)) :
    walkSequence (l₁ ++ l₂) = walkSequence l₁ ++ walkSequence l₂ := by
  induction l₁ with
  | nil => rfl
  | cons o rest ih =>
    cases o with
    | none => simpa [walkSequence] using ih
    | some repo => cases hp : repo.Parent <;> simp [walkSequence, hp, ih]

/-- C8, counterexample: in a fork chain the entry `org/proj` has the parent
`upstream/proj`, yet the candidate list is `org/proj`, `me/fork`, `upstream/proj`:
the parent's full name stands at index 2, after the entry's own full name at index 0. -/
theorem parent_after_fork_in_chain :
    some Scenario.repoProjForked ∈ Scenario.chain.Repositories ∧
    Scenario.repoProjForked.Parent = some Scenario.repoUpstream ∧
    (candidates Scenario.chain).repoNames = ["org/proj", "me/fork", "upstream/proj"] ∧
    ¬ ((candidates Scenario.chain).repoNames.indexOf Scenario.repoUpstream.FullName <
        (candidates Scenario.chain).repoNames.indexOf Scenario.repoProjForked.FullName) := by
  refine ⟨?_, rfl, rfl, ?_⟩
  · simp [Scenario.chain]
  · decide

/-- C8, amended: for every network result and every non-null entry that has a
parent, if the entry's full name was not walked before the entry (neither as an
earlier entry nor as an earlier entry's parent) and differs from its parent's full
name, then both names occur in the candidate list and the parent's full name occurs
at a strictly smaller index than the entry's own full name. -/
theorem parent_before_fork (network : RepoNetworkResult) (pre post : List (Option Repository))
    (repo parent : Repository) (hsplit : network.Repositories = pre ++ some repo :: post)
    (hparent : repo.Parent = some parent)
    (hfresh : repo.FullName ∉ (walkSequence pre).map Repository.FullName)
    (hne : parent.FullName ≠ repo.FullName) :
    parent.FullName ∈ (candidates network).repoNames ∧
      repo.FullName ∈ (candidates network).repoNames ∧
      (candidates network).repoNames.indexOf parent.FullName <
        (candidates network).repoNames.indexOf repo.FullName := by
  have hw : walkSequence network.Repositories =
      walkSequence pre ++ ([parent] ++ ([repo] ++ walkSequence post)) := by
    rw [hsplit, walkSequence_append]
    simp [walkSequence, hparent]
  have h0 : (⟨[], []⟩ : Candidates) = Candidates.ofList [] := rfl
  -- the accumulators after the entries before `repo`
  have hA : (firstByName (walkSequence pre)).map Repository.FullName ⊆
      (walkSequence pre).map Repository.FullName :=
    ((firstByName_sublist _).map _).subset
  have hrepoA : repo.FullName ∉ (firstByName (walkSequence pre)).map Repository.FullName :=
    fun h => hfresh (hA h)
  obtain ⟨acc1, hacc1, hp1, hr1⟩ : ∃ acc1,
      add (Candidates.ofList (firstByName (walkSequence pre))) parent = Candidates.ofList acc1 ∧
      parent.FullName ∈ acc1.map Repository.FullName ∧
      repo.FullName ∉ acc1.map Repository.FullName := by
    by_cases h : parent.FullName ∈ (firstByName (walkSequence pre)).map Repository.FullName
    · exact ⟨_, add_ofList_of_mem _ parent h, h, hrepoA⟩
    · refine ⟨_, add_ofList_of_not_mem _ parent h, ?_, ?_⟩
      · rw [List.map_append]
        exact List.mem_append_right _ (List.mem_singleton_self _)
      · rw [List.map_append, List.mem_append, not_or]
        exact ⟨hrepoA, fun e => hne (List.mem_singleton.mp e).symm⟩
  have hacc2 : add (Candidates.ofList acc1) repo = Candidates.ofList (acc1 ++ [repo]) :=
    add_ofList_of_not_mem acc1 repo hr1
  have hc : candidates network =
      Candidates.ofList ((acc1 ++ [repo]) ++
        (firstByName (walkSequence post)).filter
          (fun y => decide (y.FullName ∉ (acc1 ++ [repo]).map Repository.FullName))) := by
    rw [candidates, walk_eq_foldl, hw, List.foldl_append, List.foldl_append, List.foldl_append,
      h0, foldl_add_ofList]
    simp only [List.map_nil, List.not_mem_nil, not_false_eq_true, decide_True,
      List.filter_true, List.nil_append, List.foldl_cons, List.foldl_nil]
    rw [hacc1, hacc2, foldl_add_ofList]
  have hnames : (candidates network).repoNames =
      acc1.map Repository.FullName ++ (repo.FullName ::
        ((firstByName (walkSequence post)).filter
          (fun y => decide (y.FullName ∉ (acc1 ++ [repo]).map Repository.FullName))).map
            Repository.FullName) := by
    rw [hc]
    simp [Candidates.ofList]
  rw [hnames]
  refine ⟨List.mem_append_left _ hp1, List.mem_append_right _ (List.mem_cons_self _ _), ?_⟩
  rw [List.indexOf_append_of_mem hp1, List.indexOf_append_of_not_mem hr1,
    List.indexOf_cons_self]
  exact List.indexOf_lt_length.mpr hp1

theorem parent_before_fork_witness :
    "org/proj" ∈ (candidates Scenario.forkNetwork).repoNames ∧
      "me/fork" ∈ (candidates Scenario.forkNetwork).repoNames ∧
      (candidates Scenario.forkNetwork).repoNames.indexOf "org/proj" <
        (candidates Scenario.forkNetwork).repoNames.indexOf "me/fork" :=
  parent_before_fork Scenario.forkNetwork [] [some Scenario.repoProj] Scenario.repoFork
    Scenario.repoProj rfl rfl (by simp [walkSequence]) (by decide)

/-! ## Push candidates -/

theorem HeadRepos_loop_eq (l : List (Option Repository)) (results : List Repository) :
    HeadRepos.loop l results = results ++ l.reduceOption.filter Repository.ViewerCanPush := by
  induction l generalizing results with
  | nil => simp [HeadRepos.loop]
  | cons o rest ih =>
    cases o with
    | none => simp [HeadRepos.loop, ih]
    | some repo =>
      by_cases hpush : repo.ViewerCanPush = true
      · simp [HeadRepos.loop, hpush, ih, List.filter_cons]
      · simp [HeadRepos.loop, hpush, ih, List.filter_cons]

theorem reduceOption_map_some_sublist (l : List (Option Repository)) :
    (l.reduceOption.map some).Sublist l := by
  induction l with
  | nil => exact List.Sublist.refl _
  | cons o rest ih =>
    cases o with
    | none =>
      rw [List.reduceOption_cons_of_none]
      exact ih.cons _
    | some x =>
      rw [List.reduceOption_cons_of_some, List.map_cons]
      exact ih.cons₂ _

/-- C10: when the network data is available (the network field is set, or the forge
lookup succeeds), `HeadRepos` returns, with no error, exactly the non-null entries of
the network result whose `ViewerCanPush` is true, in the order of the network result:
every returned repository can be pushed to and is an entry of the network result,
and the returned list is a sub-sequence of the entries (no parent is added). -/
theorem HeadRepos_pushable (env : Env) (r : ResolvedRemotes) (network : RepoNetworkResult)
    (hnet : r.network = some network ∨
      (r.network = none ∧
        env.RepoNetwork (resolveNetwork.repos r.remotes []) = (network, none))) :
    (HeadRepos env r).ret =
        some (network.Repositories.reduceOption.filter Repository.ViewerCanPush, none) ∧
      (∀ x ∈ network.Repositories.reduceOption.filter Repository.ViewerCanPush,
        x.ViewerCanPush = true ∧ some x ∈ network.Repositories) ∧
      ((network.Repositories.reduceOption.filter Repository.ViewerCanPush).map some).Sublist
        network.Repositories := by
  refine ⟨?_, ?_, ?_⟩
  · rcases hnet with h | ⟨h, hforge⟩
    · simp [HeadRepos, h, HeadRepos_loop_eq]
    · simp [HeadRepos, h, resolveNetwork, hforge, HeadRepos_loop_eq]
  · intro x hx
    obtain ⟨hmem, hpush⟩ := List.mem_filter.mp hx
    exact ⟨hpush, List.reduceOption_mem_iff.mp hmem⟩
  · have h1 : ((network.Repositories.reduceOption.filter Repository.ViewerCanPush).map some).Sublist
        (network.Repositories.reduceOption.map some) := (List.filter_sublist _).map _
    exact h1.trans (reduceOption_map_some_sublist _)

theorem HeadRepos_pushable_witness :
    (HeadRepos Scenario.env Scenario.forkAndParent).ret = some ([Scenario.repoFork], none) ∧
      (∀ x ∈ [Scenario.repoFork], x.ViewerCanPush = true ∧
        some x ∈ Scenario.forkNetwork.Repositories) ∧
      ([Scenario.repoFork].map some).Sublist Scenario.forkNetwork.Repositories :=
  HeadRepos_pushable Scenario.env Scenario.forkAndParent Scenario.forkNetwork
    (Or.inr ⟨rfl, rfl⟩)

/-! ## Propagation of collaborator errors -/

/-- C11: the code at the failing input.  With a forge whose lookup fails, the first
`HeadRepos` returns the forge error and stores the (empty) result of the failed lookup
in the network field; a second `HeadRepos` on the same instance, and likewise a
`HeadRepos` after a `BaseRepo` that hit the failure, makes no call and returns the
empty list with no error, although the forge lookup of the instance never
succeeded. -/
theorem HeadRepos_after_forge_failure :
    (HeadRepos Scenario.envForgeDown Scenario.unhinted).ret = some ([], some "HTTP 502") ∧
    (HeadRepos Scenario.envForgeDown
        (HeadRepos Scenario.envForgeDown Scenario.unhinted).self).ret = some ([], none) ∧
    (HeadRepos Scenario.envForgeDown
        (HeadRepos Scenario.envForgeDown Scenario.unhinted).self).calls = [] ∧
    (BaseRepo Scenario.envForgeDown Scenario.unhinted).ret = some (none, some "HTTP 502") ∧
    (HeadRepos Scenario.envForgeDown
        (BaseRepo Scenario.envForgeDown Scenario.unhinted).self).ret = some ([], none) :=
  ⟨rfl, rfl, rfl, rfl, rfl⟩

/-- C12: the code at the failing inputs.  With a git config that rejects every write,
`SetBaseRepo` makes the write and returns no error both on the non-prompting path and
on the empty-candidate path; on the selected-candidate path it returns the error of
the write. -/
theorem SetBaseRepo_swallows_write_error :
    Scenario.envReadOnlyNoPrompt.SetRemoteResolution "origin" "base" =
      some "could not lock config file" ∧
    (SetBaseRepo Scenario.envReadOnlyNoPrompt Scenario.unhinted).calls =
      [Event.SetRemoteResolution "origin" "base"] ∧
    (SetBaseRepo Scenario.envReadOnlyNoPrompt Scenario.unhinted).ret = some none ∧
    (SetBaseRepo Scenario.envReadOnlyUnknown Scenario.unhinted).calls =
      [Event.RepoNetwork [Scenario.originAX, Scenario.upstreamAY],
        Event.SetRemoteResolution "origin" "base"] ∧
    (SetBaseRepo Scenario.envReadOnlyUnknown Scenario.unhinted).ret = some none ∧
    (SetBaseRepo Scenario.envReadOnly Scenario.forkAndParent).calls =
      [Event.RepoNetwork [Scenario.originFork, Scenario.upstreamProj],
        Event.SurveyAskOne ["org/proj", "me/fork"],
        Event.SetRemoteResolution "upstream" "base"] ∧
    (SetBaseRepo Scenario.envReadOnly Scenario.forkAndParent).ret =
      some (some "could not lock config file") :=
  ⟨rfl, rfl, rfl, rfl, rfl, rfl, rfl⟩

/-! ## The freestanding helpers and the reverse lookup -/

theorem GetBaseRepo_eq_hints (env : Env) (remotes : List Remote) :
    GetBaseRepo env remotes =
      match BaseRepo.hints env remotes with
      | some res => res
      | none => (none, some errNoDefaultRepo) := by
  induction remotes with
  | nil => rfl
  | cons y ys ih =>
    by_cases hb : y.Resolved = "base"
    · simp [GetBaseRepo, BaseRepo.hints, hb]
    · by_cases he : y.Resolved = ""
      · simp [GetBaseRepo, BaseRepo.hints, he, ih]
      · simp only [GetBaseRepo, BaseRepo.hints, hb, he, if_false, ne_eq, not_false_eq_true,
          if_true]
        cases env.FromFullName y.Resolved <;> rfl

theorem GetBaseRepo_no_default_iff (env : Env) (remotes : List Remote)
    (hparse : ∀ s, env.FromFullName s ≠ Except.error errNoDefaultRepo) :
    GetBaseRepo env remotes = (none, some errNoDefaultRepo) ↔
      ∀ y ∈ remotes, y.Resolved = "" := by
  induction remotes with
  | nil => simp [GetBaseRepo, errNoDefaultRepo]
  | cons y ys ih =>
    by_cases hb : y.Resolved = "base"
    · have hne : y.Resolved ≠ "" := by rw [hb]; decide
      simp [GetBaseRepo, hb, hne]
    · by_cases he : y.Resolved = ""
      · simp [GetBaseRepo, he, ih]
      · have hp := hparse y.Resolved
        simp only [GetBaseRepo, hb, he, if_false, ne_eq, not_false_eq_true, if_true,
          List.mem_cons, forall_eq_or_imp, false_and, iff_false]
        cases hf : env.FromFullName y.Resolved with
        | error err =>
          intro h
          have : err = errNoDefaultRepo := by simpa using h
          exact hp (by rw [hf, this])
        | ok repo => simp

/-- C13: on a parser whose errors are other error values than the "no default repo
set" error, `GetBaseRepo` returns the "no default repo set" error if and only if every
remote's resolution is empty; and for every instance without override whose remotes
contain at least one non-empty resolution, `BaseRepo` returns exactly what
`GetBaseRepo` returns on those remotes (the same repository or the same parse error),
whatever the terminal, the forge, the prompt, git config and the network field are. -/
theorem GetBaseRepo_offline (env : Env) (r : ResolvedRemotes) (hov : r.baseOverride = none)
    (hparse : ∀ s, env.FromFullName s ≠ Except.error errNoDefaultRepo) :
    (GetBaseRepo env r.remotes = (none, some errNoDefaultRepo) ↔
        ∀ y ∈ r.remotes, y.Resolved = "") ∧
      ((∃ y ∈ r.remotes, y.Resolved ≠ "") →
        (BaseRepo env r).ret = some (GetBaseRepo env r.remotes)) := by
  refine ⟨GetBaseRepo_no_default_iff env r.remotes hparse, ?_⟩
  rintro ⟨y, hy, hne⟩
  obtain ⟨res, hres⟩ := hints_isSome_of_mem env r.remotes y hy hne
  have h1 := GetBaseRepo_eq_hints env r.remotes
  rw [hres] at h1
  simp only [BaseRepo, hov, hres]
  rw [h1]

theorem GetBaseRepo_offline_witness :
    GetBaseRepo Scenario.env Scenario.hintedFullName.remotes =
        (some (Interface.repo ⟨"c", "w", "h1"⟩), none) ∧
      (BaseRepo Scenario.envForgeDown Scenario.hintedFullName).ret =
        some (some (Interface.repo ⟨"c", "w", "h1"⟩), none) :=
  ⟨rfl, (GetBaseRepo_offline Scenario.envForgeDown Scenario.hintedFullName rfl (by
    intro s
    simp only [Scenario.envForgeDown, Scenario.env, Scenario.parse]
    split_ifs <;> simp [errNoDefaultRepo])).2
      ⟨Scenario.originHintCW, by simp [Scenario.hintedFullName], by decide⟩⟩

/-- C14: `RemoveBaseRepo` calls `git.UnsetRemoteResolution` exactly once for each remote
whose resolution is `"base"`, in list order and with that remote's name, and makes no
other call: remotes with an empty resolution or a full name are skipped.  This holds
for every outcome of the unset calls, so a failing call neither stops the scan nor
changes what is done. -/
theorem RemoveBaseRepo_calls (env : Env) (remotes : List Remote) :
    RemoveBaseRepo env remotes =
      (remotes.filter (fun x => decide (x.Resolved = "base"))).map
        (fun x => Event.UnsetRemoteResolution x.Name) := by
  induction remotes with
  | nil => rfl
  | cons y ys ih =>
    by_cases hb : y.Resolved = "base"
    · simp [RemoveBaseRepo, hb, ih, List.filter_cons]
    · simp [RemoveBaseRepo, hb, ih, List.filter_cons]

/-- C15: `RemoteForRepo` returns, with no error, the first remote in list order that is
the same repository as the argument (`ghrepo.IsSame`: owner, name and host equal up to
case), and it returns no remote and the not-found error when there is none; it
returns the not-found error if and only if no remote in the list is the same
repository as the argument. -/
theorem RemoteForRepo_first_match (remotes : List Remote) (repo : Interface) :
    (RemoteForRepo remotes repo =
        match remotes.find? (fun x => ghrepo.IsSame (Interface.remote x) repo) with
        | some remote => (some remote, none)
        | none => (none, some errNotFound)) ∧
      ((RemoteForRepo remotes repo).2 = some errNotFound ↔
        ∀ x ∈ remotes, ghrepo.IsSame (Interface.remote x) repo = false) := by
  induction remotes with
  | nil => simp [RemoteForRepo, errNotFound]
  | cons y ys ih =>
    by_cases h : ghrepo.IsSame (Interface.remote y) repo = true
    · simp [RemoteForRepo, h]
    · simp only [Bool.not_eq_true] at h
      refine ⟨?_, ?_⟩
      · simp [RemoteForRepo, h, ih.1]
      · simp [RemoteForRepo, h, ih.2]

/-! ## The cap on looked-up remotes -/

theorem resolveNetwork_repos_eq (l repos : List Remote)
    (h : repos.length < maxRemotesForLookup) :
    resolveNetwork.repos l repos = repos ++ l.take (maxRemotesForLookup - repos.length) := by
  induction l generalizing repos with
  | nil => simp [resolveNetwork.repos]
  | cons y ys ih =>
    by_cases hlen : (repos ++ [y]).length = maxRemotesForLookup
    · have h1 : maxRemotesForLookup - repos.length = 1 := by
        simp only [List.length_append, List.length_singleton] at hlen
        omega
      simp [resolveNetwork.repos, hlen, h1]
    · have hlt : (repos ++ [y]).length < maxRemotesForLookup := by
        simp only [List.length_append, List.length_singleton] at hlen ⊢
        omega
      have h2 : maxRemotesForLookup - repos.length =
          (maxRemotesForLookup - (repos ++ [y]).length) + 1 := by
        simp only [List.length_append, List.length_singleton] at hlt ⊢
        omega
      simp only [resolveNetwork.repos, hlen, if_false, ih _ hlt]
      rw [h2, List.take_succ_cons, List.append_assoc, List.singleton_append]

theorem resolveNetwork_repos_take (l : List Remote) :
    resolveNetwork.repos l [] = l.take maxRemotesForLookup := by
  have h := resolveNetwork_repos_eq l [] (by decide)
  simpa using h

/-- C16: for every remotes list of length `n`, `resolveNetwork` makes exactly one call
to the forge, and passes it the first `min n 5` remotes in list order.  Remotes at
positions 5 and beyond are not looked up: two instances with the same network field
whose lists agree on the first five remotes make the same forge call, end with the
same network field (hence the same candidate list) and get the same result from
`HeadRepos`. -/
theorem lookup_capped (env : Env) (r r2 : ResolvedRemotes)
    (hsame : r2.remotes.take 5 = r.remotes.take 5) (hnet : r2.network = r.network) :
    (resolveNetwork env r).2.2 = [Event.RepoNetwork (r.remotes.take 5)] ∧
      (r.remotes.take 5).length = min r.remotes.length 5 ∧
      (resolveNetwork env r2).2.2 = (resolveNetwork env r).2.2 ∧
      (resolveNetwork env r2).2.1.network = (resolveNetwork env r).2.1.network ∧
      (HeadRepos env r2).ret = (HeadRepos env r).ret ∧
      (HeadRepos env r2).calls = (HeadRepos env r).calls ∧
      (HeadRepos env r2).self.network = (HeadRepos env r).self.network := by
  have h1 : resolveNetwork.repos r.remotes [] = r.remotes.take 5 :=
    resolveNetwork_repos_take r.remotes
  have h2 : resolveNetwork.repos r2.remotes [] = r.remotes.take 5 := by
    rw [resolveNetwork_repos_take r2.remotes]; exact hsame
  refine ⟨?_, ?_, ?_, ?_, ?_⟩
  · simp [resolveNetwork, h1]
  · simp [List.length_take, Nat.min_comm]
  · simp [resolveNetwork, h1, h2]
  · simp [resolveNetwork, h1, h2]
  · cases hn : r.network with
    | some network =>
      have hn2 : r2.network = some network := by rw [hnet, hn]
      simp [HeadRepos, hn, hn2]
    | none =>
      have hn2 : r2.network = none := by rw [hnet, hn]
      cases herr : (env.RepoNetwork (r.remotes.take 5)).2 with
      | some err => simp [HeadRepos, hn, hn2, resolveNetwork, h1, h2, herr]
      | none => simp [HeadRepos, hn, hn2, resolveNetwork, h1, h2, herr]

theorem lookup_capped_witness :
    (resolveNetwork Scenario.env Scenario.sixRemotes).2.2 =
        [Event.RepoNetwork [Scenario.originFork, Scenario.upstreamProj, Scenario.originAX,
          Scenario.upstreamAY, ⟨"fifth", "", ⟨"e", "five", Scenario.host⟩⟩]] ∧
      (Scenario.sixRemotes.remotes.take 5).length = min 6 5 ∧
      (resolveNetwork Scenario.env Scenario.sevenRemotes).2.2 =
        (resolveNetwork Scenario.env Scenario.sixRemotes).2.2 ∧
      (resolveNetwork Scenario.env Scenario.sevenRemotes).2.1.network =
        (resolveNetwork Scenario.env Scenario.sixRemotes).2.1.network ∧
      (HeadRepos Scenario.env Scenario.sevenRemotes).ret =
        (HeadRepos Scenario.env Scenario.sixRemotes).ret ∧
      (HeadRepos Scenario.env Scenario.sevenRemotes).calls =
        (HeadRepos Scenario.env Scenario.sixRemotes).calls ∧
      (HeadRepos Scenario.env Scenario.sevenRemotes).self.network =
        (HeadRepos Scenario.env Scenario.sixRemotes).self.network :=
  lookup_capped Scenario.env Scenario.sixRemotes Scenario.sevenRemotes rfl rfl

/-! ## Prompting and totality -/

theorem candidates_lookup_of_mem (network : RepoNetworkResult) (name : String)
    (h : name ∈ (candidates network).repoNames) :
    ∃ sel, (candidates network).repoMap.lookup name = some sel := by
  rw [candidates_eq_ofList] at h ⊢
  exact lookup_ofList_isSome _ name h

theorem BaseRepo_choose_prompts (env : Env) (r : ResolvedRemotes)
    (network : RepoNetworkResult) (calls : List Event) :
    (BaseRepo.choose env r network calls).calls.filter Event.isSurveyAskOne =
      calls.filter Event.isSurveyAskOne ++ promptCalls (candidates network).repoNames := by
  cases hn : (candidates network).repoNames with
  | nil =>
    simp only [BaseRepo.choose, hn, promptCalls]
    cases r.remotes[0]? <;> simp
  | cons n0 tl =>
    by_cases hlen : (n0 :: tl).length > 1
    · simp only [BaseRepo.choose, hn, promptCalls, hlen, if_true]
      simp only [List.length_cons, Nat.add_one_ne_zero, if_false, List.getElem?_cons_zero]
      repeat' split
      all_goals simp [List.filter_append, Event.isSurveyAskOne]
    · simp only [BaseRepo.choose, hn, promptCalls, hlen, if_false]
      simp only [List.length_cons, Nat.add_one_ne_zero, if_false, List.getElem?_cons_zero]
      repeat' split
      all_goals simp [List.filter_append, Event.isSurveyAskOne]

theorem filter_prompt_lookupCalls (r : ResolvedRemotes) :
    (lookupCalls r).filter Event.isSurveyAskOne = [] := by
  unfold lookupCalls; cases r.network <;> simp [Event.isSurveyAskOne]

/-- C18: in `BaseRepo` past the non-interactive fallback (no override, no hints,
prompting possible, network field set or forge lookup without error), the prompt is
made if and only if the candidate list has two or more entries, and it is offered
exactly the candidate list, in order.  With no candidate the first remote is returned
with no error and nothing is written to git config; with exactly one candidate that
candidate is recorded in `repoMap` and is the repository returned, no prompt being
made. -/
theorem BaseRepo_prompt_iff (env : Env) (r : ResolvedRemotes) (network : RepoNetworkResult)
    (first : Remote) (rest : List Remote)
    (hov : r.baseOverride = none) (hres : ∀ y ∈ r.remotes, y.Resolved = "")
    (hp : env.CanPrompt = true) (hrem : r.remotes = first :: rest)
    (hnet : r.network = some network ∨
      (r.network = none ∧
        env.RepoNetwork (resolveNetwork.repos r.remotes []) = (network, none))) :
    (BaseRepo env r).calls.filter Event.isSurveyAskOne =
        (if 2 ≤ (candidates network).repoNames.length then
          [Event.SurveyAskOne (candidates network).repoNames] else []) ∧
      ((candidates network).repoNames = [] →
        (BaseRepo env r).ret = some (some (Interface.remote first), none) ∧
        (BaseRepo env r).calls.filter Event.isSetRemoteResolution = []) ∧
      (∀ name, (candidates network).repoNames = [name] →
        ∃ selectedRepo, (candidates network).repoMap.lookup name = some selectedRepo ∧
          ∃ err, (BaseRepo env r).ret = some (some (Interface.repository selectedRepo), err)) := by
  have he := BaseRepo_eq_choose env r network hov hres hp hnet
  refine ⟨?_, ?_, ?_⟩
  · rw [he, BaseRepo_choose_prompts, filter_prompt_lookupCalls, List.nil_append, promptCalls]
    by_cases h : (candidates network).repoNames.length > 1
    · have h2 : 2 ≤ (candidates network).repoNames.length := h
      simp [h, h2]
    · have h2 : ¬ 2 ≤ (candidates network).repoNames.length := h
      simp [h, h2]
  · intro hnil
    rw [he]
    have hl : (lookupCalls r).filter Event.isSetRemoteResolution = [] := by
      unfold lookupCalls; cases r.network <;> simp [Event.isSetRemoteResolution]
    simp [BaseRepo.choose, hnil, hrem, hl]
  · intro name hname
    obtain ⟨sel, hsel⟩ := candidates_lookup_of_mem network name (by rw [hname]; simp)
    refine ⟨sel, hsel, ?_⟩
    have hc := BaseRepo_choose_selected env { r with network := some network } network
      (lookupCalls r) name sel first rest hrem (Or.inl hname) hsel
    rw [he, hc]
    split
    · exact ⟨_, rfl⟩
    · exact ⟨_, rfl⟩

theorem BaseRepo_prompt_iff_witness :
    (BaseRepo Scenario.env Scenario.forkAndParent).calls.filter Event.isSurveyAskOne =
      [Event.SurveyAskOne ["org/proj", "me/fork"]] :=
  (BaseRepo_prompt_iff Scenario.env Scenario.forkAndParent Scenario.forkNetwork
    Scenario.originFork [Scenario.upstreamProj] rfl (by decide) rfl rfl
    (Or.inr ⟨rfl, rfl⟩)).1

theorem BaseRepo_choose_total (env : Env) (r : ResolvedRemotes) (network : RepoNetworkResult)
    (calls : List Event) (hne : r.remotes ≠ [])
    (hpick : ∀ options name, env.SurveyAskOne options = Except.ok name → name ∈ options) :
    ∃ res, (BaseRepo.choose env r network calls).ret = some res := by
  obtain ⟨first, rest, hrem⟩ : ∃ first rest, r.remotes = first :: rest := by
    cases hr : r.remotes with
    | nil => exact absurd hr hne
    | cons a b => exact ⟨a, b, rfl⟩
  cases hn : (candidates network).repoNames with
  | nil => simp [BaseRepo.choose, hn, hrem]
  | cons n0 tl =>
    by_cases hlen : (n0 :: tl).length > 1
    · cases hask : env.SurveyAskOne (candidates network).repoNames with
      | error err =>
        rw [hn] at hask
        have hlen2 : 0 < tl.length := by simpa using hlen
        simp [BaseRepo.choose, hn, hlen2, hask]
      | ok baseName =>
        obtain ⟨sel, hsel⟩ := candidates_lookup_of_mem network baseName (hpick _ _ hask)
        have hc := BaseRepo_choose_selected env r network calls baseName sel first rest hrem
          (Or.inr ⟨hn ▸ hlen, hask⟩) hsel
        rw [hc]
        split <;> exact ⟨_, rfl⟩
    · have htl : tl = [] := by
        cases tl with
        | nil => rfl
        | cons a b => simp at hlen
      obtain ⟨sel, hsel⟩ := candidates_lookup_of_mem network n0 (by rw [hn]; simp)
      have hc := BaseRepo_choose_selected env r network calls n0 sel first rest hrem
        (Or.inl (by rw [hn, htl])) hsel
      rw [hc]
      split <;> exact ⟨_, rfl⟩

theorem SetBaseRepo_choose_selected (env : Env) (r : ResolvedRemotes)
    (network : RepoNetworkResult) (calls : List Event) (baseName : String)
    (selectedRepo : Repository) (first : Remote) (rest : List Remote)
    (hrem : r.remotes = first :: rest)
    (hsel : (candidates network).repoNames = [baseName] ∨
      ((candidates network).repoNames.length > 1 ∧
        env.SurveyAskOne (candidates network).repoNames = Except.ok baseName))
    (hmap : (candidates network).repoMap.lookup baseName = some selectedRepo) :
    SetBaseRepo.choose env r network calls =
      match r.remotes.find? (fun x =>
          ghrepo.IsSame (Interface.remote x) (Interface.repository selectedRepo)) with
      | some remote =>
        ⟨some (env.SetRemoteResolution remote.Name "base"), r,
          calls ++ promptCalls (candidates network).repoNames ++
            [Event.SetRemoteResolution remote.Name "base"]⟩
      | none =>
        ⟨some (env.SetRemoteResolution first.Name
            (ghrepo.FullName (Interface.repository selectedRepo))), r,
          calls ++ promptCalls (candidates network).repoNames ++
            [Event.SetRemoteResolution first.Name
              (ghrepo.FullName (Interface.repository selectedRepo))]⟩ := by
  rcases hsel with h1 | ⟨hlen, hask⟩
  · simp only [SetBaseRepo.choose, h1, promptCalls, RemoteForRepo_fst]
    simp only [List.length_singleton, one_ne_zero, if_false, lt_irrefl,
      List.getElem?_cons_zero, hmap]
    cases hf : r.remotes.find? (fun x =>
        ghrepo.IsSame (Interface.remote x) (Interface.repository selectedRepo)) with
    | some remote => simp
    | none => simp [hrem]
  · obtain ⟨n0, tl, hn⟩ : ∃ n0 tl, (candidates network).repoNames = n0 :: tl := by
      cases hc : (candidates network).repoNames with
      | nil => rw [hc] at hlen; simp at hlen
      | cons n0 tl => exact ⟨n0, tl, rfl⟩
    have hne : (candidates network).repoNames.length ≠ 0 := by omega
    have h0 : (candidates network).repoNames[0]? = some n0 := by rw [hn]; simp
    simp only [SetBaseRepo.choose, promptCalls, RemoteForRepo_fst, hne, if_false, h0, hlen,
      if_true, hask, hmap]
    cases hf : r.remotes.find? (fun x =>
        ghrepo.IsSame (Interface.remote x) (Interface.repository selectedRepo)) with
    | some remote => simp
    | none => simp [hrem]

theorem SetBaseRepo_choose_total (env : Env) (r : ResolvedRemotes)
    (network : RepoNetworkResult) (calls : List Event) (hne : r.remotes ≠ [])
    (hpick : ∀ options name, env.SurveyAskOne options = Except.ok name → name ∈ options) :
    ∃ res, (SetBaseRepo.choose env r network calls).ret = some res := by
  obtain ⟨first, rest, hrem⟩ : ∃ first rest, r.remotes = first :: rest := by
    cases hr : r.remotes with
    | nil => exact absurd hr hne
    | cons a b => exact ⟨a, b, rfl⟩
  cases hn : (candidates network).repoNames with
  | nil => simp [SetBaseRepo.choose, hn, hrem]
  | cons n0 tl =>
    by_cases hlen : (n0 :: tl).length > 1
    · cases hask : env.SurveyAskOne (candidates network).repoNames with
      | error err =>
        rw [hn] at hask
        have hlen2 : 0 < tl.length := by simpa using hlen
        simp [SetBaseRepo.choose, hn, hlen2, hask]
      | ok baseName =>
        obtain ⟨sel, hsel⟩ := candidates_lookup_of_mem network baseName (hpick _ _ hask)
        have hc := SetBaseRepo_choose_selected env r network calls baseName sel first rest
          hrem (Or.inr ⟨hn ▸ hlen, hask⟩) hsel
        rw [hc]
        split <;> exact ⟨_, rfl⟩
    · have htl : tl = [] := by
        cases tl with
        | nil => rfl
        | cons a b => simp at hlen
      obtain ⟨sel, hsel⟩ := candidates_lookup_of_mem network n0 (by rw [hn]; simp)
      have hc := SetBaseRepo_choose_selected env r network calls n0 sel first rest hrem
        (Or.inl (by rw [hn, htl])) hsel
      rw [hc]
      split <;> exact ⟨_, rfl⟩

/-- C20: for every instance whose remotes list is non-empty and every prompt that
answers with one of the options it was offered, `BaseRepo` and `SetBaseRepo` return
(they do not panic): the access to `r.remotes[0]` is in range, and every name of the
candidate list is a key of `repoMap`, so that `selectedRepo` is never a nil pointer
when it is passed to `RemoteForRepo`. -/
theorem BaseRepo_SetBaseRepo_total (env : Env) (r : ResolvedRemotes) (hne : r.remotes ≠ [])
    (hpick : ∀ options name, env.SurveyAskOne options = Except.ok name → name ∈ options) :
    (∃ res, (BaseRepo env r).ret = some res) ∧
      (∃ res, (SetBaseRepo env r).ret = some res) ∧
      (∃ first, r.remotes[0]? = some first) ∧
      (∀ network name, name ∈ (candidates network).repoNames →
        ∃ selectedRepo, (candidates network).repoMap.lookup name = some selectedRepo) := by
  obtain ⟨first, rest, hrem⟩ : ∃ first rest, r.remotes = first :: rest := by
    cases hr : r.remotes with
    | nil => exact absurd hr hne
    | cons a b => exact ⟨a, b, rfl⟩
  refine ⟨?_, ?_, ⟨first, by simp [hrem]⟩, fun network name h =>
    candidates_lookup_of_mem network name h⟩
  · unfold BaseRepo
    cases hov : r.baseOverride with
    | some o => exact ⟨_, rfl⟩
    | none =>
      cases hh : BaseRepo.hints env r.remotes with
      | some res => exact ⟨_, rfl⟩
      | none =>
        cases hp : env.CanPrompt with
        | false => simp [hrem]
        | true =>
          cases hn : r.network with
          | some network => simpa using BaseRepo_choose_total env r network [] hne hpick
          | none =>
            cases herr : (env.RepoNetwork (resolveNetwork.repos r.remotes [])).2 with
            | some err => simp [resolveNetwork, herr]
            | none =>
              have ht := BaseRepo_choose_total env
                ⟨r.baseOverride, r.remotes,
                  some (env.RepoNetwork (resolveNetwork.repos r.remotes [])).1⟩
                (env.RepoNetwork (resolveNetwork.repos r.remotes [])).1
                [Event.RepoNetwork (resolveNetwork.repos r.remotes [])] hne hpick
              simpa [resolveNetwork, herr, hov] using ht
  · unfold SetBaseRepo
    cases hp : env.CanPrompt with
    | false => simp [hrem]
    | true =>
      cases hn : r.network with
      | some network => simpa using SetBaseRepo_choose_total env r network [] hne hpick
      | none =>
        cases herr : (env.RepoNetwork (resolveNetwork.repos r.remotes [])).2 with
        | some err => simp [resolveNetwork, herr]
        | none =>
          have ht := SetBaseRepo_choose_total env
            ⟨r.baseOverride, r.remotes,
              some (env.RepoNetwork (resolveNetwork.repos r.remotes [])).1⟩
            (env.RepoNetwork (resolveNetwork.repos r.remotes [])).1
            [Event.RepoNetwork (resolveNetwork.repos r.remotes [])] hne hpick
          simpa [resolveNetwork, herr] using ht

theorem BaseRepo_SetBaseRepo_total_witness :
    (∃ res, (BaseRepo Scenario.envAskFirst Scenario.forkAndParent).ret = some res) ∧
      (∃ res, (SetBaseRepo Scenario.envAskFirst Scenario.forkAndParent).ret = some res) ∧
      (∃ first, Scenario.forkAndParent.remotes[0]? = some first) ∧
      (∀ network name, name ∈ (candidates network).repoNames →
        ∃ selectedRepo, (candidates network).repoMap.lookup name = some selectedRepo) :=
  BaseRepo_SetBaseRepo_total Scenario.envAskFirst Scenario.forkAndParent (by decide) (by
    intro options name h
    cases options with
    | nil => simp [Scenario.envAskFirst, Scenario.askFirst] at h
    | cons o os =>
      have : o = name := by simpa [Scenario.envAskFirst, Scenario.askFirst] using h
      simp [this])

/-! ## The cached answer -/

end context
